import Mathlib

/-!
Verification of the constraint sets built by the notebook
`AIND-Constraint_Satisfaction.ipynb`: cryptarithmetic (TWO + TWO = FOUR),
Australia map coloring, N-Queens, and Sudoku, each handed to an external
SMT solver.  The embedding models each constraint added to a solver
instance as a proposition over an assignment of the declared integer
variables, and models the check/assert behaviour of the four asserting
cells.
-/

namespace AindCSP

/- ## Solver results and the asserting cells -/

/-- Result of the external solver decision procedure: sat, unsat or unknown. -/
inductive CheckSatResult
  | sat
  | unsat
  | unknown
  deriving DecidableEq

/-- The cryptarithmetic, map-coloring and Sudoku cells execute
`assert solver.check() == sat`: the assert raises exactly when the returned
result differs from `sat`. -/
def eqSatAssertFails (r : CheckSatResult) : Bool :=
  decide (r ≠ CheckSatResult.sat)

/-- Python truthiness of a solver result object.  The z3 Python class
`CheckSatResult` defines `__eq__` but neither `__bool__` nor `__len__`, so a
truth test falls back to default object truthiness and is always `true`. -/
def pyTruthy (_ : CheckSatResult) : Bool :=
  true

/-- The N-queens benchmark cell executes `assert nq_solver.check()`, truth
testing the result object itself rather than comparing it with `sat`. -/
def truthyAssertFails (r : CheckSatResult) : Bool :=
  !(pyTruthy r)

/- ## Cryptarithmetic: TWO + TWO = FOUR -/

/-- Exact rational value of the Python float literal `1e{k}`.  For k at most 3
the decimal power 10^k is an integer below 2^53, hence exactly representable
in binary64, and the literal denotes precisely 10^k. -/
def floatLit1e (k : ℕ) : ℚ :=
  10 ^ k

/-- A rational is exactly representable as a binary64 floating-point value:
an integer significand of magnitude below 2^53 scaled by a power of two. -/
def reprBinary64 (x : ℚ) : Prop :=
  ∃ m e : ℤ, m.natAbs < 2 ^ 53 ∧ x = (m : ℚ) * (2 : ℚ) ^ e

/-- The sum constraint the notebook adds:
`(T+T)*1e2 + (W+W)*1e1 + (O+O)*1e0 == F*1e3 + O*1e2 + U*1e1 + R*1e0`.
The float coefficients coerce the integer-sorted variables, so the equation
the solver receives lives in the ordered field; the variables stay integers. -/
def caSumConstraint (F O R T U W : ℤ) : Prop :=
  ((T : ℚ) + T) * floatLit1e 2 + ((W : ℚ) + W) * floatLit1e 1 + ((O : ℚ) + O) * floatLit1e 0
    = (F : ℚ) * floatLit1e 3 + (O : ℚ) * floatLit1e 2 + (U : ℚ) * floatLit1e 1
      + (R : ℚ) * floatLit1e 0

/-- The z3 `Distinct` constraint on a list of terms: pairwise different. -/
def distinctList (l : List ℤ) : Prop :=
  l.Pairwise (fun a b => a ≠ b)

instance (l : List ℤ) : Decidable (distinctList l) :=
  List.instDecidablePairwise l

/-- Every constraint registered on `ca_solver` before its check: the domain
bounds 0..9 on the six letters, the no-leading-zero constraints on F and T,
the Distinct constraint, and the sum constraint. -/
def caConstraints (F O R T U W : ℤ) : Prop :=
  (0 ≤ F ∧ F ≤ 9) ∧ (0 ≤ O ∧ O ≤ 9) ∧ (0 ≤ R ∧ R ≤ 9) ∧
  (0 ≤ T ∧ T ≤ 9) ∧ (0 ≤ U ∧ U ≤ 9) ∧ (0 ≤ W ∧ W ≤ 9) ∧
  F ≠ 0 ∧ T ≠ 0 ∧
  distinctList [F, O, R, T, U, W] ∧
  caSumConstraint F O R T U W

/- ## Map coloring (Australia) -/

/-- The seven region variables declared for the map-coloring problem. -/
inductive Region
  | WA
  | SA
  | NT
  | Q
  | NSW
  | V
  | T
  deriving DecidableEq

/-- The adjacency map literal of the notebook, key by key in insertion order;
the region T carries no entry, which the empty list records. -/
def adjacent : Region → List Region
  | Region.WA => [Region.NT, Region.SA]
  | Region.NT => [Region.WA, Region.SA, Region.Q]
  | Region.SA => [Region.WA, Region.NT, Region.Q, Region.V, Region.NSW]
  | Region.Q => [Region.NT, Region.SA, Region.NSW]
  | Region.NSW => [Region.Q, Region.SA, Region.V]
  | Region.V => [Region.SA, Region.NSW]
  | Region.T => []

/-- Every constraint registered on `mc_solver` before its check: the bounds
0..2 on all seven regions, then the disequality the doubly nested loop adds
for every key of the adjacency map and every neighbour in its list. -/
def mcConstraints (c : Region → ℤ) : Prop :=
  (0 ≤ c Region.WA ∧ c Region.WA ≤ 2) ∧ (0 ≤ c Region.SA ∧ c Region.SA ≤ 2) ∧
  (0 ≤ c Region.NT ∧ c Region.NT ≤ 2) ∧ (0 ≤ c Region.Q ∧ c Region.Q ≤ 2) ∧
  (0 ≤ c Region.NSW ∧ c Region.NSW ≤ 2) ∧ (0 ≤ c Region.V ∧ c Region.V ≤ 2) ∧
  (0 ≤ c Region.T ∧ c Region.T ≤ 2) ∧
  (c Region.WA ≠ c Region.NT) ∧ (c Region.WA ≠ c Region.SA) ∧
  (c Region.NT ≠ c Region.WA) ∧ (c Region.NT ≠ c Region.SA) ∧ (c Region.NT ≠ c Region.Q) ∧
  (c Region.SA ≠ c Region.WA) ∧ (c Region.SA ≠ c Region.NT) ∧ (c Region.SA ≠ c Region.Q) ∧
  (c Region.SA ≠ c Region.V) ∧ (c Region.SA ≠ c Region.NSW) ∧
  (c Region.Q ≠ c Region.NT) ∧ (c Region.Q ≠ c Region.SA) ∧ (c Region.Q ≠ c Region.NSW) ∧
  (c Region.NSW ≠ c Region.Q) ∧ (c Region.NSW ≠ c Region.SA) ∧ (c Region.NSW ≠ c Region.V) ∧
  (c Region.V ≠ c Region.SA) ∧ (c Region.V ≠ c Region.NSW)

/-- Overwrite the color of region T, leaving the other six regions alone. -/
def updateT (c : Region → ℤ) (v : ℤ) : Region → ℤ :=
  fun r => if r = Region.T then v else c r

/-- A concrete coloring used to instantiate the map-coloring theorems. -/
def demoColor : Region → ℤ
  | Region.WA => 0
  | Region.SA => 2
  | Region.NT => 1
  | Region.Q => 0
  | Region.NSW => 1
  | Region.V => 0
  | Region.T => 0

/- ## N-Queens -/

/-- The helper the notebook defines over solver terms: `If(x >= 0, x, -x)`. -/
def Abs (x : ℤ) : ℤ :=
  if x ≥ 0 then x else -x

/-- Every constraint `nqueens(N)` registers on its fresh solver: the bounds
0..9 on each of the N queen variables, `Distinct(queens)` over the whole
list, and for every ordered pair of different indices the diagonal
constraint `Abs(queens[i]-queens[j]) != abs(i-j)`. -/
def nqueensSat (N : ℕ) (q : ℕ → ℤ) : Prop :=
  (∀ i, i < N → 0 ≤ q i ∧ q i ≤ 9) ∧
  distinctList ((List.range N).map q) ∧
  (∀ i, i < N → ∀ j, j < N → i ≠ j →
    Abs (q i - q j) ≠ (((i : ℤ) - (j : ℤ)).natAbs : ℤ))

/-- A concrete 8-queens board used to instantiate the bound theorems. -/
def demoQueens (n : ℕ) : ℤ :=
  ([0, 4, 7, 5, 2, 6, 1, 3] : List ℤ).getD n 0

/- ## Sudoku -/

/-- Row `r` of the 9x9 grid of box variables, in column order. -/
def rowList (bx : ℕ → ℕ → ℤ) (r : ℕ) : List ℤ :=
  (List.range 9).map fun col => bx r col

/-- Column `col` of the grid, in row order, as `zip(*boxes)` yields it. -/
def colList (bx : ℕ → ℕ → ℤ) (col : ℕ) : List ℤ :=
  (List.range 9).map fun r => bx r col

/-- Cell number `k` of the 3x3 block whose upper-left corner is `(a, b)`,
in the row-major order `chain(boxes[a][b:b+3], boxes[a+1][b:b+3],
boxes[a+2][b:b+3])` produces. -/
def blockCell (bx : ℕ → ℕ → ℤ) (a b k : ℕ) : ℤ :=
  bx (a + k / 3) (b + k % 3)

/-- The nine cells of the 3x3 block with upper-left corner `(a, b)`. -/
def blockList (bx : ℕ → ℕ → ℤ) (a b : ℕ) : List ℤ :=
  (List.range 9).map (blockCell bx a b)

/-- Every general constraint registered on `s_solver`: the bounds 1..9 on all
81 boxes, a Distinct constraint per row, one per column, and one per 3x3
block for each corner pair drawn from {0, 3, 6}. -/
def sSolverConstraints (bx : ℕ → ℕ → ℤ) : Prop :=
  (∀ r, r < 9 → ∀ col, col < 9 → 1 ≤ bx r col ∧ bx r col ≤ 9) ∧
  (∀ r, r < 9 → distinctList (rowList bx r)) ∧
  (∀ col, col < 9 → distinctList (colList bx col)) ∧
  (∀ a ∈ [0, 3, 6], ∀ b ∈ [0, 3, 6], distinctList (blockList bx a b))

/-- The fixed hint board of the notebook; 0 marks an unassigned box. -/
def board : List (List ℤ) :=
  [[8, 0, 0, 0, 0, 0, 0, 0, 0],
   [0, 0, 3, 6, 0, 0, 0, 0, 0],
   [0, 7, 0, 0, 9, 0, 2, 0, 0],
   [0, 5, 0, 0, 0, 7, 0, 0, 0],
   [0, 0, 0, 0, 4, 5, 7, 0, 0],
   [0, 0, 0, 1, 0, 0, 0, 3, 0],
   [0, 0, 1, 0, 0, 0, 0, 6, 8],
   [0, 0, 8, 5, 0, 0, 0, 1, 0],
   [0, 9, 0, 0, 0, 0, 4, 0, 0]]

/-- Entry `(r, col)` of the hint board. -/
def boardAt (r col : ℕ) : ℤ :=
  (board.getD r []).getD col 0

/-- The cells the doubly nested hint loop constrains: among all 81 index
pairs, exactly those whose board entry is nonzero. -/
def hintPairs : List (ℕ × ℕ) :=
  (((List.range 9).flatMap fun r => (List.range 9).map fun col => (r, col)).filter
    fun p => boardAt p.1 p.2 != 0)

/-- An assignment satisfies every hint equality the loop registers. -/
def satisfiesHints (bx : ℕ → ℕ → ℤ) : Prop :=
  ∀ p ∈ hintPairs, bx p.1 p.2 = boardAt p.1 p.2

/-- A concrete full grid used to instantiate the Sudoku theorems. -/
def demoGrid (r col : ℕ) : ℤ :=
  (((3 * (r % 3) + r / 3 + col) % 9 : ℕ) : ℤ) + 1

/- Decidability of the constraint sets, so concrete instances evaluate. -/

instance (F O R T U W : ℤ) : Decidable (caSumConstraint F O R T U W) := by
  unfold caSumConstraint; infer_instance

instance (F O R T U W : ℤ) : Decidable (caConstraints F O R T U W) := by
  unfold caConstraints; infer_instance

instance (c : Region → ℤ) : Decidable (mcConstraints c) := by
  unfold mcConstraints; infer_instance

instance (N : ℕ) (q : ℕ → ℤ) : Decidable (nqueensSat N q) := by
  unfold nqueensSat; infer_instance

instance (bx : ℕ → ℕ → ℤ) : Decidable (sSolverConstraints bx) := by
  unfold sSolverConstraints; infer_instance

instance (bx : ℕ → ℕ → ℤ) : Decidable (satisfiesHints bx) := by
  unfold satisfiesHints; infer_instance

/- ## Helper lemmas -/

/-- A pairwise-different list of the images of 0..n-1 gives pointwise
disequality of the images. -/
lemma pairwise_ne_map_range {f : ℕ → ℤ} {n : ℕ}
    (h : List.Pairwise (fun a b => a ≠ b) ((List.range n).map f)) :
    ∀ i j, i < n → j < n → i ≠ j → f i ≠ f j := by
  intro i j hi hj hne
  rw [List.pairwise_iff_getElem] at h
  rcases Nat.lt_or_ge i j with hij | hij
  · have h1 := h i j (by simpa using hi) (by simpa using hj) hij
    simpa using h1
  · have hji : j < i := Nat.lt_of_le_of_ne hij (fun e => hne e.symm)
    have h1 := h j i (by simpa using hj) (by simpa using hi) hji
    simp only [List.getElem_map, List.getElem_range] at h1
    exact fun e => h1 e.symm

/-- The rational-coefficient sum constraint holds of integer values exactly
when the corresponding integer equation does. -/
lemma caSumConstraint_iff_int (F O R T U W : ℤ) :
    caSumConstraint F O R T U W ↔
      (T + T) * 100 + (W + W) * 10 + (O + O) = F * 1000 + O * 100 + U * 10 + R := by
  unfold caSumConstraint floatLit1e
  norm_num
  constructor
  · intro h
    exact_mod_cast h
  · intro h
    exact_mod_cast h

/-- Pigeonhole: more than ten queen variables cannot be pairwise different
inside the fixed interval 0..9. -/
lemma nqueensSat_not_exists_of_gt_ten {N : ℕ} (hN : 10 < N) :
    ¬ ∃ q : ℕ → ℤ, nqueensSat N q := by
  rintro ⟨q, hb, hd, -⟩
  have hd2 := pairwise_ne_map_range hd
  have hcard := Finset.card_le_card_of_injOn q
    (fun i hi => Finset.mem_Icc.mpr (hb i (Finset.mem_range.mp hi)))
    (by
      intro i hi j hj hqe
      by_contra hne
      simp only [Finset.coe_range, Set.mem_Iio] at hi hj
      exact hd2 i j hi hj hne hqe)
  rw [Finset.card_range, Int.card_Icc] at hcard
  omega

/-- Overwriting the color of T with any legal color preserves every
map-coloring constraint: T occurs only in its own domain bound. -/
lemma mcConstraints_updateT {c : Region → ℤ} (h : mcConstraints c) {v : ℤ}
    (h0 : 0 ≤ v) (h2 : v ≤ 2) : mcConstraints (updateT c v) := by
  obtain ⟨b1, b2, b3, b4, b5, b6, b7, hrest⟩ := h
  simp only [mcConstraints, updateT] at *
  simp_all

/-- Membership in the generated hint-constraint list, characterised. -/
lemma mem_hintPairs {p : ℕ × ℕ} :
    p ∈ hintPairs ↔ p.1 < 9 ∧ p.2 < 9 ∧ boardAt p.1 p.2 ≠ 0 := by
  unfold hintPairs
  simp only [List.mem_filter, List.mem_flatMap, List.mem_map, List.mem_range, bne_iff_ne]
  constructor
  · rintro ⟨⟨r, hr, col, hc, rfl⟩, hnz⟩
    exact ⟨hr, hc, hnz⟩
  · rintro ⟨h1, h2, h3⟩
    exact ⟨⟨p.1, h1, p.2, h2, rfl⟩, h3⟩

/- ## Claim theorems -/

/-- C1 (amended): the cryptarithmetic, map-coloring and Sudoku cells compare
the solver result with sat and their assert raises exactly when the result is
not sat; the N-queens benchmark cell truth-tests the result object itself,
which is always truthy, so its assert never raises whatever the result. -/
theorem assert_fires_iff_not_sat (r : CheckSatResult) :
    (eqSatAssertFails r = true ↔ r ≠ CheckSatResult.sat) ∧
    truthyAssertFails r = false := by
  cases r <;> simp [eqSatAssertFails, truthyAssertFails, pyTruthy]

/-- C1 counterexample: when the N-queens check returns unsat, so the solver
did not find a satisfying assignment, the asserting benchmark cell does not
fail, refuting the claim that each asserting cell fails exactly then. -/
theorem nqueens_assert_truthy_cex :
    truthyAssertFails CheckSatResult.unsat = false ∧
    CheckSatResult.unsat ≠ CheckSatResult.sat := by
  decide

/-- C2: at the benchmark size N = 16 the constraint set built by nqueens is
unsatisfiable, contradicting the expectation, recorded in the benchmark
assert message, that the solver finds a solution for every benchmark size. -/
theorem nqueens_benchmark16_unsat : ¬ ∃ q : ℕ → ℤ, nqueensSat 16 q :=
  nqueensSat_not_exists_of_gt_ten (by norm_num)

/-- C3: for every N above ten, the constraint set built by nqueens is
unsatisfiable: the N queen variables are each bounded to the ten values
0..9 yet required to be pairwise distinct. -/
theorem nqueens_unsat_above_ten (N : ℕ) (hN : 10 < N) :
    ¬ ∃ q : ℕ → ℤ, nqueensSat N q :=
  nqueensSat_not_exists_of_gt_ten hN

/-- C3 witness: the instance N = 11. -/
theorem nqueens_unsat_above_ten_witness :
    10 < 11 ∧ ¬ ∃ q : ℕ → ℤ, nqueensSat 11 q :=
  ⟨by norm_num, nqueens_unsat_above_ten 11 (by norm_num)⟩

/-- C4: every satisfying model of the cryptarithmetic solver assigns the six
letters pairwise-distinct digits in 0..9 with F and T nonzero, and satisfies
the exact integer equation of TWO + TWO = FOUR. -/
theorem ca_model_correct (F O R T U W : ℤ) (h : caConstraints F O R T U W) :
    (∀ x ∈ [F, O, R, T, U, W], 0 ≤ x ∧ x ≤ 9) ∧
    (F ≠ O ∧ F ≠ R ∧ F ≠ T ∧ F ≠ U ∧ F ≠ W ∧ O ≠ R ∧ O ≠ T ∧ O ≠ U ∧ O ≠ W ∧
      R ≠ T ∧ R ≠ U ∧ R ≠ W ∧ T ≠ U ∧ T ≠ W ∧ U ≠ W) ∧
    F ≠ 0 ∧ T ≠ 0 ∧
    2 * (100 * T + 10 * W + O) = 1000 * F + 100 * O + 10 * U + R := by
  obtain ⟨hF, hO, hR, hT, hU, hW, hF0, hT0, hdist, hsum⟩ := h
  refine ⟨?_, ?_, hF0, hT0, ?_⟩
  · intro x hx
    simp only [List.mem_cons, List.not_mem_nil, or_false] at hx
    rcases hx with rfl | rfl | rfl | rfl | rfl | rfl <;> assumption
  · simp only [distinctList, List.pairwise_cons, List.mem_cons,
      List.not_mem_nil, or_false, List.Pairwise.nil, forall_eq_or_imp, forall_eq] at hdist
    tauto
  · have h2 := (caSumConstraint_iff_int F O R T U W).mp hsum
    omega

/-- C4 witness: the model F = 1, O = 4, R = 8, T = 7, U = 6, W = 3, that is
734 + 734 = 1468. -/
theorem ca_model_correct_witness :
    caConstraints 1 4 8 7 6 3 ∧
    2 * (100 * (7 : ℤ) + 10 * 3 + 4) = 1000 * 1 + 100 * 4 + 10 * 6 + 8 :=
  ⟨by norm_num [caConstraints, caSumConstraint, floatLit1e, distinctList],
   (ca_model_correct 1 4 8 7 6 3
      (by norm_num [caConstraints, caSumConstraint, floatLit1e, distinctList])).2.2.2.2⟩

/-- C5: every satisfying model of the Sudoku solver assigns each box a value
in 1..9 with the nine values of every row, every column and every 3x3 block
pairwise distinct. -/
theorem sudoku_model_correct (bx : ℕ → ℕ → ℤ) (h : sSolverConstraints bx) :
    (∀ r col, r < 9 → col < 9 → 1 ≤ bx r col ∧ bx r col ≤ 9) ∧
    (∀ r c1 c2, r < 9 → c1 < 9 → c2 < 9 → c1 ≠ c2 → bx r c1 ≠ bx r c2) ∧
    (∀ col r1 r2, col < 9 → r1 < 9 → r2 < 9 → r1 ≠ r2 → bx r1 col ≠ bx r2 col) ∧
    (∀ r1 c1 r2 c2, r1 < 9 → c1 < 9 → r2 < 9 → c2 < 9 →
      r1 / 3 = r2 / 3 → c1 / 3 = c2 / 3 → ¬(r1 = r2 ∧ c1 = c2) →
      bx r1 c1 ≠ bx r2 c2) := by
  obtain ⟨hb, hrow, hcol, hblk⟩ := h
  refine ⟨fun r col hr hc => hb r hr col hc, ?_, ?_, ?_⟩
  · intro r c1 c2 hr h1 h2 hne
    exact pairwise_ne_map_range (hrow r hr) c1 c2 h1 h2 hne
  · intro col r1 r2 hc h1 h2 hne
    exact pairwise_ne_map_range (hcol col hc) r1 r2 h1 h2 hne
  · intro r1 c1 r2 c2 h1 h2 h3 h4 hdr hdc hne
    have ha : 3 * (r1 / 3) ∈ [0, 3, 6] := by
      have h9 : r1 / 3 = 0 ∨ r1 / 3 = 1 ∨ r1 / 3 = 2 := by omega
      rcases h9 with h9 | h9 | h9 <;> rw [h9] <;> decide
    have hbm : 3 * (c1 / 3) ∈ [0, 3, 6] := by
      have h9 : c1 / 3 = 0 ∨ c1 / 3 = 1 ∨ c1 / 3 = 2 := by omega
      rcases h9 with h9 | h9 | h9 <;> rw [h9] <;> decide
    have hp := pairwise_ne_map_range (hblk _ ha _ hbm)
      (3 * (r1 % 3) + c1 % 3) (3 * (r2 % 3) + c2 % 3)
      (by omega) (by omega) (by omega)
    have e1 : blockCell bx (3 * (r1 / 3)) (3 * (c1 / 3)) (3 * (r1 % 3) + c1 % 3)
        = bx r1 c1 := by
      have er : 3 * (r1 / 3) + (3 * (r1 % 3) + c1 % 3) / 3 = r1 := by omega
      have ec : 3 * (c1 / 3) + (3 * (r1 % 3) + c1 % 3) % 3 = c1 := by omega
      unfold blockCell
      rw [er, ec]
    have e2 : blockCell bx (3 * (r1 / 3)) (3 * (c1 / 3)) (3 * (r2 % 3) + c2 % 3)
        = bx r2 c2 := by
      have er : 3 * (r1 / 3) + (3 * (r2 % 3) + c2 % 3) / 3 = r2 := by omega
      have ec : 3 * (c1 / 3) + (3 * (r2 % 3) + c2 % 3) % 3 = c2 := by omega
      unfold blockCell
      rw [er, ec]
    rw [e1, e2] at hp
    exact hp

/-- C5 witness: a concrete full grid satisfying every general constraint,
with two cells of the first row compared. -/
theorem sudoku_model_correct_witness :
    sSolverConstraints demoGrid ∧ demoGrid 0 0 ≠ demoGrid 0 1 :=
  ⟨by decide, (sudoku_model_correct demoGrid (by decide)).2.1 0 0 1 (by norm_num)
    (by norm_num) (by norm_num) (by norm_num)⟩

/-- C6: the hint board is a fixed 9x9 integer array, and an assignment meets
all the hint equalities the loop registers exactly when it agrees with every
nonzero board entry; cells holding 0 impose nothing. -/
theorem sudoku_hints_exact :
    (board.length = 9 ∧ ∀ row ∈ board, row.length = 9) ∧
    (∀ bx : ℕ → ℕ → ℤ, satisfiesHints bx ↔
      ∀ r col, r < 9 → col < 9 → boardAt r col ≠ 0 → bx r col = boardAt r col) := by
  refine ⟨by decide, ?_⟩
  intro bx
  constructor
  · intro h r col hr hc hnz
    exact h (r, col) (mem_hintPairs.mpr ⟨hr, hc, hnz⟩)
  · intro h p hp
    obtain ⟨h1, h2, h3⟩ := mem_hintPairs.mp hp
    exact h p.1 p.2 h1 h2 h3

/-- C7: every satisfying model of the map-coloring solver assigns each of the
seven regions a color in 0..2, and every pair listed in the adjacency map
receives different colors. -/
theorem mc_model_correct (c : Region → ℤ) (h : mcConstraints c) :
    (∀ r, 0 ≤ c r ∧ c r ≤ 2) ∧
    (∀ r1 r2, r2 ∈ adjacent r1 → c r1 ≠ c r2) := by
  obtain ⟨b1, b2, b3, b4, b5, b6, b7, d1, d2, d3, d4, d5, d6, d7, d8, d9, d10,
    d11, d12, d13, d14, d15, d16, d17, d18⟩ := h
  constructor
  · intro r
    cases r <;> assumption
  · intro r1 r2 hm
    cases r1 <;> cases r2 <;> simp [adjacent] at hm <;> assumption

/-- C7 witness: a concrete legal coloring, with the adjacent pair WA, NT
compared. -/
theorem mc_model_correct_witness :
    mcConstraints demoColor ∧ demoColor Region.WA ≠ demoColor Region.NT :=
  ⟨by decide, (mc_model_correct demoColor (by decide)).2 Region.WA Region.NT (by decide)⟩

/-- C8: in all four problem sections, every declared integer variable is
bounded below and above by its finite domain in every satisfying model:
letters in 0..9, region colors in 0..2, queen rows in 0..9, boxes in 1..9. -/
theorem all_declared_variables_bounded :
    (∀ F O R T U W : ℤ, caConstraints F O R T U W →
      ∀ x ∈ [F, O, R, T, U, W], 0 ≤ x ∧ x ≤ 9) ∧
    (∀ c : Region → ℤ, mcConstraints c → ∀ r, 0 ≤ c r ∧ c r ≤ 2) ∧
    (∀ N : ℕ, ∀ q : ℕ → ℤ, nqueensSat N q → ∀ i, i < N → 0 ≤ q i ∧ q i ≤ 9) ∧
    (∀ bx : ℕ → ℕ → ℤ, sSolverConstraints bx →
      ∀ r col, r < 9 → col < 9 → 1 ≤ bx r col ∧ bx r col ≤ 9) := by
  refine ⟨?_, ?_, ?_, ?_⟩
  · intro F O R T U W h x hx
    obtain ⟨hF, hO, hR, hT, hU, hW, -⟩ := h
    simp only [List.mem_cons, List.not_mem_nil, or_false] at hx
    rcases hx with rfl | rfl | rfl | rfl | rfl | rfl <;> assumption
  · intro c h r
    obtain ⟨b1, b2, b3, b4, b5, b6, b7, -⟩ := h
    cases r <;> assumption
  · intro N q h i hi
    exact h.1 i hi
  · intro bx h r col hr hc
    exact h.1 r hr col hc

/-- C8 witness: the bound conclusions at one concrete model per section. -/
theorem all_declared_variables_bounded_witness :
    (0 ≤ (8 : ℤ) ∧ (8 : ℤ) ≤ 9) ∧
    (0 ≤ demoColor Region.SA ∧ demoColor Region.SA ≤ 2) ∧
    (0 ≤ demoQueens 0 ∧ demoQueens 0 ≤ 9) ∧
    (1 ≤ demoGrid 0 0 ∧ demoGrid 0 0 ≤ 9) :=
  ⟨all_declared_variables_bounded.1 1 4 8 7 6 3
      (by norm_num [caConstraints, caSumConstraint, floatLit1e, distinctList]) 8 (by decide),
   all_declared_variables_bounded.2.1 demoColor (by decide) Region.SA,
   all_declared_variables_bounded.2.2.1 8 demoQueens (by decide) 0 (by norm_num),
   all_declared_variables_bounded.2.2.2 demoGrid (by decide) 0 0 (by norm_num) (by norm_num)⟩

/-- C9: the region T occurs in no adjacency constraint, so overwriting its
color with any value in 0..2 preserves every map-coloring constraint, and
every color in 0..2 is realised by some satisfying model at T. -/
theorem tasmania_unconstrained :
    (∀ c : Region → ℤ, mcConstraints c → ∀ v : ℤ, 0 ≤ v → v ≤ 2 →
      mcConstraints (updateT c v)) ∧
    (∀ v : ℤ, 0 ≤ v → v ≤ 2 → ∃ c : Region → ℤ, mcConstraints c ∧ c Region.T = v) :=
  ⟨fun _c h v h0 h2 => mcConstraints_updateT h h0 h2,
   fun v h0 h2 => ⟨updateT demoColor v,
     mcConstraints_updateT (by decide) h0 h2, by simp [updateT]⟩⟩

/-- C9 witness: the concrete coloring with the color of T overwritten by 2,
and a model giving T the color 1. -/
theorem tasmania_unconstrained_witness :
    mcConstraints (updateT demoColor 2) ∧
    (∃ c : Region → ℤ, mcConstraints c ∧ c Region.T = 1) :=
  ⟨tasmania_unconstrained.1 demoColor (by decide) 2 (by norm_num) (by norm_num),
   tasmania_unconstrained.2 1 (by norm_num) (by norm_num)⟩

/-- C10: the four float literals of the sum constraint are exactly
representable in binary64 and denote the integers 1, 10, 100 and 1000, and
the real-coefficient constraint holds of integer values exactly when the
exact integer equation does. -/
theorem ca_sum_float_exact :
    (∀ k : ℕ, k ≤ 3 → reprBinary64 (floatLit1e k)) ∧
    (∀ F O R T U W : ℤ, caSumConstraint F O R T U W ↔
      (T + T) * 100 + (W + W) * 10 + (O + O) = F * 1000 + O * 100 + U * 10 + R) := by
  constructor
  · intro k hk
    refine ⟨10 ^ k, 0, ?_, ?_⟩
    · interval_cases k <;> norm_num
    · unfold floatLit1e
      push_cast
      ring
  · intro F O R T U W
    exact caSumConstraint_iff_int F O R T U W

/-- C10 witness: the literal 1e3 and the model digits of 734 + 734 = 1468. -/
theorem ca_sum_float_exact_witness :
    reprBinary64 (floatLit1e 3) ∧
    (caSumConstraint 1 4 8 7 6 3 ↔
      ((7 : ℤ) + 7) * 100 + (3 + 3) * 10 + (4 + 4) = 1 * 1000 + 4 * 100 + 6 * 10 + 8) :=
  ⟨ca_sum_float_exact.1 3 (by norm_num), ca_sum_float_exact.2 1 4 8 7 6 3⟩

end AindCSP
